import Mathlib

/-!
Shallow embedding of `gedcom-to-knowledge-graph.py` (class `GedcomParser`).

The Python parser mutates two insertion-ordered dicts (`self.individuals`,
`self.families`) plus two context fields (`self.current_entity`,
`self.current_tag`).  We model the dicts as insertion-ordered association
lists whose entries are whole record dicts: a record holds its `'id'` and
`'type'` keys in the same namespace as the dynamic attribute tags, and a
value is a scalar string, a nested dict, or a list (the three shapes the
program stores).  The aliased `current_entity` pointer is modeled as the
location of the object it references: which of the two mappings holds it
and under which key.  This is faithful because the pointer always refers
to the object most recently stored at that key (records are stored at
creation, keys are never deleted, and a key's object is only ever replaced
by a level-0 line that simultaneously repoints `current_entity` at the new
object).  Which state-machine branch a line takes is decided by re-reading
the record's mutable `'type'` entry, exactly as the program re-reads
`self.current_entity['type']` — so a level-1 `type ...` line on an open
individual really does re-route subsequent lines.  The Python exceptions
parsing and formatting can raise (`ValueError` from `int(...)`, `TypeError`
from item assignment on a `str`/`list` and from `str`/`list` indexing with
a `str` key, `KeyError` from a missing `'type'`, `AttributeError` from
`.append` on a non-list) appear as an `Except` error type.
-/

namespace Gedcom

/-- Python whitespace, as stripped by `str.strip()` and accepted around
`int(...)` input: the code points whose `str.isspace()` is true. -/
def isPySpace (c : Char) : Bool :=
  c = ' ' || c = '\t' || c = '\n' || c = '\r' || c = '\x0b' || c = '\x0c' ||
  c.toNat = 28 || c.toNat = 29 || c.toNat = 30 || c.toNat = 31 ||
  c.toNat = 133 || c.toNat = 160 || c.toNat = 5760 ||
  (8192 ≤ c.toNat && c.toNat ≤ 8202) ||
  c.toNat = 8232 || c.toNat = 8233 || c.toNat = 8239 || c.toNat = 8287 ||
  c.toNat = 12288

/-- Embeds Python `s.strip()`: removes leading and trailing whitespace. -/
def pyStrip (s : String) : String :=
  String.mk (((s.data.dropWhile isPySpace).reverse.dropWhile isPySpace).reverse)

/-- First code point of every block of ten consecutive Unicode decimal
digits (category `Nd`, digit values 0–9 in order); `int(...)` accepts
exactly these as digits. -/
def ndBases : List Nat :=
  [48, 1632, 1776, 1984, 2406, 2534, 2662, 2790, 2918, 3046, 3174, 3302,
   3430, 3558, 3664, 3792, 3872, 4160, 4240, 6112, 6160, 6470, 6608, 6784,
   6800, 6992, 7088, 7232, 7248, 42528, 43216, 43264, 43472, 43504, 43600,
   44016, 65296, 66720, 68912, 69734, 69872, 69942, 70096, 70384, 70736,
   70864, 71248, 71360, 71472, 71904, 72016, 72784, 73040, 73120, 92768,
   92864, 93008, 120782, 120792, 120802, 120812, 120822, 123200, 123632,
   125264, 130032]

/-- The decimal value of a character when `int(...)` treats it as a digit
(Unicode category `Nd`), `Option.none` otherwise. -/
def pyDigitVal? (c : Char) : Option Nat :=
  ndBases.findSome? (fun b =>
    if b ≤ c.toNat && c.toNat ≤ b + 9 then some (c.toNat - b) else Option.none)

/-- Digit-run accumulator for `int(...)` with PEP 515 underscores: an
underscore must sit between two digits (no leading, trailing, or doubled
underscore). -/
def pyDigitsUAux : List Char → Nat → Option Nat
  | [], acc => some acc
  | c :: rest, acc =>
    match pyDigitVal? c with
    | some d => pyDigitsUAux rest (acc * 10 + d)
    | Option.none =>
      if c = '_' then
        match rest with
        | [] => Option.none
        | c2 :: rest2 =>
          match pyDigitVal? c2 with
          | some d2 => pyDigitsUAux rest2 (acc * 10 + d2)
          | Option.none => Option.none
      else Option.none

/-- A non-empty digit run (underscores allowed between digits) parsed as a
natural number. -/
def pyDigits? (cs : List Char) : Option Nat :=
  match cs with
  | [] => Option.none
  | c :: _ =>
    if c = '_' then Option.none
    else pyDigitsUAux cs 0

/-- Embeds Python `int(s)`: optional surrounding whitespace, an optional
ASCII sign, then a non-empty run of Unicode decimal digits with optional
single underscores between digits; `Option.none` models the `ValueError`
raised on anything else. -/
def pyInt? (s : String) : Option Int :=
  let cs := ((s.data.dropWhile isPySpace).reverse.dropWhile isPySpace).reverse
  match cs with
  | '-' :: rest => (pyDigits? rest).map (fun n => -(n : Int))
  | '+' :: rest => (pyDigits? rest).map (fun n => (n : Int))
  | _ => (pyDigits? cs).map (fun n => (n : Int))

/-- Embeds Python `line.split(' ', maxsplit)`: split on each single space
character (empty segments preserved), at most `n` split points, the last
segment keeping any remaining spaces. -/
def pySplitAux : Nat → List Char → List Char → List (List Char)
  | _, [], acc => [acc.reverse]
  | n, c :: rest, acc =>
    if c = ' ' then
      match n with
      | 0 => [acc.reverse ++ c :: rest]
      | m + 1 => acc.reverse :: pySplitAux m rest []
    else
      pySplitAux n rest (c :: acc)

/-- Embeds `line.split(' ', 2)` from `parse_line`. -/
def pySplit2 (s : String) : List String :=
  (pySplitAux 2 s.data []).map String.mk

/-- Embeds Python `s.replace(old, new)` for a non-empty `old`: replaces
every non-overlapping occurrence left to right.  The fuel argument (always
called with the length of the scanned list) keeps the recursion structural;
one character is consumed per step, so the fuel never runs out. -/
def pyReplaceAux (old new : List Char) : Nat → List Char → List Char
  | _, [] => []
  | 0, cs => cs
  | fuel + 1, c :: rest =>
    if old ≠ [] && old.isPrefixOf (c :: rest) then
      new ++ pyReplaceAux old new fuel (List.drop (old.length - 1) rest)
    else
      c :: pyReplaceAux old new fuel rest

/-- Embeds Python `s.replace(old, new)` (call sites only use `old = "@"`,
`new = ""`). -/
def pyReplace (s old new : String) : String :=
  String.mk (pyReplaceAux old.data new.data s.data.length s.data)

/-- Embeds Python `pat in s` on strings: substring containment. -/
def containsSeq (pat : List Char) : List Char → Bool
  | [] => pat.isEmpty
  | c :: rest => pat.isPrefixOf (c :: rest) || containsSeq pat rest

/-- A value stored in a record dict: the program stores scalar strings
(ids, `'type'`, level-1 remainders, `HUSB`/`WIFE` pointers), nested dicts
of sub-tag to value (level-2 lines), and lists of strings (`CHIL`). -/
inductive AttrVal where
  | str (s : String)
  | map (m : List (String × String))
  | lst (l : List String)
deriving DecidableEq

/-- A record dict: one flat insertion-ordered namespace holding the fixed
`'id'` and `'type'` entries together with the dynamic attribute tags, as in
`{'id': id, 'type': 'INDI'}` plus whatever later lines assign. -/
abbrev Record := List (String × AttrVal)

/-- The record dict built at a level-0 line: `{'id': id, 'type': ty}`. -/
def newRecord (id ty : String) : Record :=
  [("id", AttrVal.str id), ("type", AttrVal.str ty)]

/-- The `self.current_entity` pointer: `None`, or the location of the
referenced record object — which mapping holds it and under which key.
This location is faithful to the object alias: the dict slot it names is
only ever overwritten by a level-0 line that also repoints the pointer.
(The branch taken for a subsequent line is *not* decided by this location:
the program re-reads the record's mutable `'type'` entry.) -/
inductive CurEnt where
  | none
  | indi (id : String)
  | fam (id : String)
deriving DecidableEq

/-- The parser's mutable state: the two insertion-ordered dicts plus the
current-record and current-tag context. -/
structure PState where
  individuals : List (String × Record)
  families : List (String × Record)
  current : CurEnt
  currentTag : Option String
deriving DecidableEq

/-- The state built by `GedcomParser.__init__`. -/
def initState : PState := ⟨[], [], CurEnt.none, Option.none⟩

/-- The Python exceptions the embedded code can raise: `ValueError` from
`int(...)`, `TypeError` from item assignment on a `str`/`list` and from
indexing a `str`/`list` with a string key, `KeyError` from reading a
missing `'type'` key, `AttributeError` from `.append` on a `str`/dict. -/
inductive PyError where
  | valueError
  | typeError
  | keyError
  | attributeError
deriving DecidableEq

/-- Python dict lookup `d[k]` / `k in d` on an insertion-ordered dict. -/
def lookupA {α : Type} (k : String) : List (String × α) → Option α
  | [] => Option.none
  | (k', v) :: rest => if k' = k then some v else lookupA k rest

/-- Python dict assignment `d[k] = v`: replaces the value in place when the
key exists (keeping its insertion position), otherwise appends. -/
def updateA {α : Type} (k : String) (v : α) : List (String × α) → List (String × α)
  | [] => [(k, v)]
  | (k', v') :: rest => if k' = k then (k', v) :: rest else (k', v') :: updateA k v rest

/-- The `IN_INDIVIDUAL` body of `parse_line` (source lines 111–118), acting
on the aliased record object: at level 1 set `current_tag` and, given a
remainder, assign it as a scalar; at level 2 with a truthy `current_tag`,
create the nested dict only if the tag is absent and then item-assign into
the stored value — which raises `TypeError` when that value is a `str` or a
`list`.  Returns the updated record and `current_tag`. -/
def indiStep (level : Int) (p1 : String) (rest2 : List String) (ctag : Option String)
    (rec : Record) : Except PyError (Record × Option String) :=
  if level = 1 then
    match rest2 with
    | [] => Except.ok (rec, some p1)
    | v :: _ => Except.ok (updateA p1 (AttrVal.str v) rec, some p1)
  else if level = 2 then
    match ctag with
    | Option.none => Except.ok (rec, ctag)
    | some tag =>
      if tag = "" then Except.ok (rec, ctag)
      else
        match lookupA tag rec with
        | Option.none =>
          Except.ok (updateA tag (AttrVal.map [(p1, rest2.headD "")]) rec, ctag)
        | some (AttrVal.map m) =>
          Except.ok (updateA tag (AttrVal.map (updateA p1 (rest2.headD "") m)) rec, ctag)
        | some (AttrVal.str _) => Except.error PyError.typeError
        | some (AttrVal.lst _) => Except.error PyError.typeError
  else Except.ok (rec, ctag)

/-- The `IN_FAMILY` body of `parse_line` (source lines 121–131), acting on
the aliased record object: at level 1 with a remainder, strip `'@'` and
either assign `HUSB`/`WIFE`, or append to `CHIL` (creating the list if the
key is absent; `.append` on a stored `str`/dict raises `AttributeError`). -/
def famStep (level : Int) (p1 : String) (rest2 : List String)
    (rec : Record) : Except PyError Record :=
  if level = 1 then
    match rest2 with
    | [] => Except.ok rec
    | v :: _ =>
      let value := pyReplace v "@" ""
      if p1 = "HUSB" then Except.ok (updateA p1 (AttrVal.str value) rec)
      else if p1 = "WIFE" then Except.ok (updateA p1 (AttrVal.str value) rec)
      else if p1 = "CHIL" then
        match lookupA "CHIL" rec with
        | Option.none => Except.ok (updateA "CHIL" (AttrVal.lst [value]) rec)
        | some (AttrVal.lst l) => Except.ok (updateA "CHIL" (AttrVal.lst (l ++ [value])) rec)
        | some (AttrVal.str _) => Except.error PyError.attributeError
        | some (AttrVal.map _) => Except.error PyError.attributeError
      else Except.ok rec
  else Except.ok rec

/-- Embeds `GedcomParser.parse_line`.  `Except.error` models an uncaught
Python exception escaping the method.  For a non-level-0 line the branch is
chosen by re-reading the current record's `'type'` entry
(`self.current_entity['type'] == 'INDI'` / `== 'FAM'`); the mutated record
is written back to the mapping slot the `current_entity` pointer
aliases. -/
def parse_line (st : PState) (line : String) : Except PyError PState :=
  match pySplit2 line with
  | [] => Except.ok st
  | p0 :: rest =>
    match pyInt? p0 with
    | Option.none => Except.error PyError.valueError
    | some level =>
      match rest with
      | [] => Except.ok st
      | p1 :: rest2 =>
        if level = 0 then
          if containsSeq "INDI".data line.data then
            let id := pyReplace p1 "@" ""
            Except.ok { st with
              current := CurEnt.indi id,
              individuals := updateA id (newRecord id "INDI") st.individuals }
          else if containsSeq "FAM".data line.data then
            let id := pyReplace p1 "@" ""
            Except.ok { st with
              current := CurEnt.fam id,
              families := updateA id (newRecord id "FAM") st.families }
          else
            Except.ok { st with current := CurEnt.none }
        else
          match st.current with
          | CurEnt.none => Except.ok st
          | CurEnt.indi iid =>
            match lookupA iid st.individuals with
            | Option.none => Except.ok st
            | some rec =>
              match lookupA "type" rec with
              | Option.none => Except.error PyError.keyError
              | some tv =>
                if tv = AttrVal.str "INDI" then
                  match indiStep level p1 rest2 st.currentTag rec with
                  | Except.error e => Except.error e
                  | Except.ok rt =>
                    Except.ok { st with
                      currentTag := rt.2,
                      individuals := updateA iid rt.1 st.individuals }
                else if tv = AttrVal.str "FAM" then
                  match famStep level p1 rest2 rec with
                  | Except.error e => Except.error e
                  | Except.ok rec' =>
                    Except.ok { st with
                      individuals := updateA iid rec' st.individuals }
                else Except.ok st
          | CurEnt.fam fid =>
            match lookupA fid st.families with
            | Option.none => Except.ok st
            | some rec =>
              match lookupA "type" rec with
              | Option.none => Except.error PyError.keyError
              | some tv =>
                if tv = AttrVal.str "INDI" then
                  match indiStep level p1 rest2 st.currentTag rec with
                  | Except.error e => Except.error e
                  | Except.ok rt =>
                    Except.ok { st with
                      currentTag := rt.2,
                      families := updateA fid rt.1 st.families }
                else if tv = AttrVal.str "FAM" then
                  match famStep level p1 rest2 rec with
                  | Except.error e => Except.error e
                  | Except.ok rec' =>
                    Except.ok { st with
                      families := updateA fid rec' st.families }
                else Except.ok st

/-- The loop of `parse_file`: feed each line, stripped, to `parse_line`,
propagating the first uncaught exception. -/
def parse_lines (st : PState) : List String → Except PyError PState
  | [] => Except.ok st
  | l :: ls =>
    match parse_line st (pyStrip l) with
    | Except.error e => Except.error e
    | Except.ok st' => parse_lines st' ls

/-- An output entity (`{"name", "entityType", "observations"}`). -/
structure Entity where
  name : String
  entityType : String
  observations : List String
deriving DecidableEq

/-- An output relation (`{"from", "to", "relationType"}`). -/
structure Relation where
  from_ : String
  to_ : String
  relationType : String
deriving DecidableEq

/-- Embeds `GedcomParser._extract_date`: on a dict, `'DATE' in d` is key
membership and `d['DATE']` a lookup; on a scalar string, `'DATE' in s` is a
substring test and `s['DATE']` raises `TypeError`; on a list, `'DATE' in l`
is element membership and `l['DATE']` raises `TypeError`. -/
def extract_date : AttrVal → Except PyError (Option String)
  | AttrVal.map m => Except.ok (lookupA "DATE" m)
  | AttrVal.str s =>
    if containsSeq "DATE".data s.data then Except.error PyError.typeError
    else Except.ok Option.none
  | AttrVal.lst l =>
    if l.contains "DATE" then Except.error PyError.typeError
    else Except.ok Option.none

/-- Python `repr` hex digit. -/
def hexDigit (n : Nat) : Char :=
  if n < 10 then Char.ofNat (48 + n) else Char.ofNat (87 + n)

/-- Escaping of one character inside a Python string `repr` delimited by
quote `q`. -/
def pyCharEsc (q c : Char) : List Char :=
  if c = '\\' then ['\\', '\\']
  else if c = q then ['\\', q]
  else if c = '\n' then ['\\', 'n']
  else if c = '\r' then ['\\', 'r']
  else if c = '\t' then ['\\', 't']
  else if c.toNat < 32 || c.toNat = 127 then
    ['\\', 'x', hexDigit (c.toNat / 16), hexDigit (c.toNat % 16)]
  else [c]

/-- Python `repr` of a `str` (as used when an f-string formats a
container): single quotes unless the text holds one and no double
quote. -/
def pyStrRepr (s : String) : String :=
  let sq := Char.ofNat 39
  let dq := Char.ofNat 34
  let q := if s.data.contains sq && !(s.data.contains dq) then dq else sq
  String.mk (q :: (s.data.flatMap (pyCharEsc q) ++ [q]))

/-- Python `repr` of a `dict` of strings, insertion order. -/
def pyDictRepr (m : List (String × String)) : String :=
  "\x7b" ++ String.intercalate ", " (m.map (fun kv => pyStrRepr kv.1 ++ ": " ++ pyStrRepr kv.2)) ++ "\x7d"

/-- Python `repr` of a `list` of strings. -/
def pyListRepr (l : List String) : String :=
  "[" ++ String.intercalate ", " (l.map pyStrRepr) ++ "]"

/-- How an f-string renders a stored value: a `str` as itself, a `dict` or
`list` via its `repr`. -/
def pyFormatVal : AttrVal → String
  | AttrVal.str s => s
  | AttrVal.map m => pyDictRepr m
  | AttrVal.lst l => pyListRepr l

/-- The name an entity derives from its record:
`person.get('NAME', f"Unknown_{person_id}")`, rendered by the f-string. -/
def derived_name (pid : String) (rec : Record) : String :=
  match lookupA "NAME" rec with
  | some v => pyFormatVal v
  | Option.none => "Unknown_" ++ pid

/-- One iteration of the entity loop of `format_knowledge`: the derived
name, the extracted birth and death dates, and the observation list with
falsy entries filtered out (`None`, and the empty date string, are dropped;
the name line is never empty). -/
def format_entity (pid : String) (rec : Record) : Except PyError Entity :=
  match extract_date ((lookupA "BIRT" rec).getD (AttrVal.map [])) with
  | Except.error e => Except.error e
  | Except.ok birth =>
    match extract_date ((lookupA "DEAT" rec).getD (AttrVal.map [])) with
    | Except.error e => Except.error e
    | Except.ok death =>
      Except.ok ⟨"Person_" ++ pid, "Person",
        ["Name: " ++ derived_name pid rec]
        ++ (match birth with
            | some d => if d = "" then [] else ["Birth date: " ++ d]
            | Option.none => [])
        ++ (match death with
            | some d => if d = "" then [] else ["Death date: " ++ d]
            | Option.none => [])⟩

/-- The entity loop of `format_knowledge`, over individuals in insertion
order. -/
def format_entities : List (String × Record) → Except PyError (List Entity)
  | [] => Except.ok []
  | (pid, rec) :: rest =>
    match format_entity pid rec with
    | Except.error e => Except.error e
    | Except.ok e =>
      match format_entities rest with
      | Except.error e2 => Except.error e2
      | Except.ok es => Except.ok (e :: es)

/-- Iterating a stored value, as `for child in family.get('CHIL', [])`
does: a list yields its elements, a string its characters, a dict its
keys. -/
def pyIterVal : AttrVal → List String
  | AttrVal.lst l => l
  | AttrVal.str s => s.data.map (fun c => String.mk [c])
  | AttrVal.map m => m.map Prod.fst

/-- The child sequence the relation loop iterates:
`family.get('CHIL', [])`. -/
def famChildren (rec : Record) : List String :=
  match lookupA "CHIL" rec with
  | some v => pyIterVal v
  | Option.none => []

/-- The relations contributed by one family record in the relation loop of
`format_knowledge`: the `married_to` edge when both `'HUSB'` and `'WIFE'`
keys are present (f-string-rendered values), then per child, in iteration
order, a husband edge then a wife edge when the key is present. -/
def family_rels (rec : Record) : List Relation :=
  (match lookupA "HUSB" rec, lookupA "WIFE" rec with
   | some h, some w =>
     [⟨"Person_" ++ pyFormatVal h, "Person_" ++ pyFormatVal w, "married_to"⟩]
   | _, _ => []) ++
  (famChildren rec).flatMap (fun c =>
    (match lookupA "HUSB" rec with
     | some h => [⟨"Person_" ++ pyFormatVal h, "Person_" ++ c, "parent_of"⟩]
     | Option.none => []) ++
    (match lookupA "WIFE" rec with
     | some w => [⟨"Person_" ++ pyFormatVal w, "Person_" ++ c, "parent_of"⟩]
     | Option.none => []))

/-- The relation loop of `format_knowledge`, over families in insertion
order. -/
def format_relations (fams : List (String × Record)) : List Relation :=
  fams.flatMap (fun pf => family_rels pf.2)

/-- Embeds `GedcomParser.format_knowledge`: the entity loop runs first (and
any exception it raises escapes), then the relation loop. -/
def format_knowledge (st : PState) : Except PyError (List Entity × List Relation) :=
  match format_entities st.individuals with
  | Except.error e => Except.error e
  | Except.ok es => Except.ok (es, format_relations st.families)

/-- Embeds `GedcomParser.parse_file` on the file's line sequence: strip and
parse each line in order, then format the completed store. -/
def parse_file (lines : List String) : Except PyError (List Entity × List Relation) :=
  match parse_lines initState lines with
  | Except.error e => Except.error e
  | Except.ok st => format_knowledge st

/-- Python truthiness of a stored value (`if self.current_tag:` style
tests, and the `name` f-string input): a string is truthy iff non-empty, a
dict or list iff non-empty. -/
def truthyVal : AttrVal → Bool
  | AttrVal.str s => s ≠ ""
  | AttrVal.map m => m ≠ []
  | AttrVal.lst l => l ≠ []

/-- A record whose `NAME` entry, if present, is truthy. -/
def nameOk (rec : Record) : Prop :=
  ∀ v, lookupA "NAME" rec = some v → truthyVal v = true

/-- Invariant of the individual store: every stored record's `NAME` entry,
if present, is truthy.  Parsing stripped lines preserves this: the only
scalar ever assigned under `NAME` is a third split field of a stripped
line (never empty), nested dicts are created non-empty, the family branch
writes only `HUSB`/`WIFE`/`CHIL`, and fresh records carry no `NAME`. -/
def InvS (st : PState) : Prop :=
  ∀ p ∈ st.individuals, nameOk p.2

/-! ### Association-list lemmas (Python dict semantics) -/

theorem lookupA_updateA_self {α : Type} (k : String) (v : α) (l : List (String × α)) :
    lookupA k (updateA k v l) = some v := by
  induction l with
  | nil => simp [updateA, lookupA]
  | cons hd tl ih =>
    obtain ⟨k0, v0⟩ := hd
    by_cases h : k0 = k
    · simp [updateA, lookupA, h]
    · simp [updateA, lookupA, h, ih]

theorem lookupA_updateA_ne {α : Type} {k' k : String} (h : k' ≠ k) (v : α)
    (l : List (String × α)) :
    lookupA k' (updateA k v l) = lookupA k' l := by
  induction l with
  | nil =>
    have h' : k ≠ k' := Ne.symm h
    simp [updateA, lookupA, h']
  | cons hd tl ih =>
    obtain ⟨k0, v0⟩ := hd
    by_cases hk : k0 = k
    · subst hk
      have h' : k0 ≠ k' := Ne.symm h
      simp [updateA, lookupA, h']
    · by_cases hk' : k0 = k'
      · simp [updateA, lookupA, hk, hk', h]
      · simp [updateA, lookupA, hk, hk', ih]

theorem lookupA_updateA_cases {α : Type} {k' k : String} {v w : α} {l : List (String × α)}
    (h : lookupA k' (updateA k v l) = some w) : w = v ∨ lookupA k' l = some w := by
  by_cases hk : k' = k
  · subst hk
    rw [lookupA_updateA_self] at h
    exact Or.inl (Option.some.inj h).symm
  · right
    rwa [lookupA_updateA_ne hk] at h

theorem mem_updateA {α : Type} {x : String × α} {k : String} {v : α} {l : List (String × α)}
    (h : x ∈ updateA k v l) : x = (k, v) ∨ x ∈ l := by
  induction l with
  | nil =>
    simp [updateA] at h
    exact Or.inl h
  | cons hd tl ih =>
    obtain ⟨k0, v0⟩ := hd
    by_cases hk : k0 = k
    · have he : updateA k v ((k0, v0) :: tl) = (k0, v) :: tl := by simp [updateA, hk]
      rw [he] at h
      rcases List.mem_cons.mp h with h1 | h1
      · exact Or.inl (h1.trans (by rw [hk]))
      · exact Or.inr (List.mem_cons_of_mem _ h1)
    · have he : updateA k v ((k0, v0) :: tl) = (k0, v0) :: updateA k v tl := by
        simp [updateA, hk]
      rw [he] at h
      rcases List.mem_cons.mp h with h1 | h1
      · exact Or.inr (by rw [h1]; exact List.mem_cons_self _ _)
      · rcases ih h1 with h2 | h2
        · exact Or.inl h2
        · exact Or.inr (List.mem_cons_of_mem _ h2)

theorem keys_updateA {α : Type} {k : String} {v0 : α} {l : List (String × α)}
    (h : lookupA k l = some v0) (v : α) :
    (updateA k v l).map Prod.fst = l.map Prod.fst := by
  induction l with
  | nil => simp [lookupA] at h
  | cons hd tl ih =>
    obtain ⟨k0, v0'⟩ := hd
    by_cases hk : k0 = k
    · simp [updateA, hk]
    · simp only [lookupA, if_neg hk] at h
      simp [updateA, hk, ih h]

theorem lookupA_some_mem {α : Type} {k : String} {v : α} {l : List (String × α)}
    (h : lookupA k l = some v) : (k, v) ∈ l := by
  induction l with
  | nil => simp [lookupA] at h
  | cons hd tl ih =>
    obtain ⟨k0, v0⟩ := hd
    by_cases hk : k0 = k
    · subst hk
      simp only [lookupA, if_pos rfl] at h
      rw [Option.some.inj h]
      exact List.mem_cons_self _ _
    · simp only [lookupA, if_neg hk] at h
      exact List.mem_cons_of_mem _ (ih h)

theorem updateA_ne_nil {α : Type} (k : String) (v : α) (l : List (String × α)) :
    updateA k v l ≠ [] := by
  cases l with
  | nil => simp [updateA]
  | cons hd tl =>
    obtain ⟨k0, v0⟩ := hd
    by_cases hk : k0 = k <;> simp [updateA, hk]

/-! ### Claim theorems: concrete computations -/

/-- C4: parsing the twelve-line sample input yields exactly the three
`Person_I1` / `Person_I2` / `Person_I3` entities with the stated
observation lists, in that order, and exactly the relations
`married_to(Person_I1, Person_I2)`, `parent_of(Person_I1, Person_I3)`,
`parent_of(Person_I2, Person_I3)`, in that order. -/
theorem c4_end_to_end :
    parse_file ["0 @I1@ INDI", "1 NAME John /Doe/", "1 BIRT", "2 DATE 1 JAN 1980",
      "0 @I2@ INDI", "1 NAME Jane /Doe/", "0 @I3@ INDI", "1 NAME Jimmy /Doe/",
      "0 @F1@ FAM", "1 HUSB @I1@", "1 WIFE @I2@", "1 CHIL @I3@"] =
    Except.ok
      ([⟨"Person_I1", "Person", ["Name: John /Doe/", "Birth date: 1 JAN 1980"]⟩,
        ⟨"Person_I2", "Person", ["Name: Jane /Doe/"]⟩,
        ⟨"Person_I3", "Person", ["Name: Jimmy /Doe/"]⟩],
       [⟨"Person_I1", "Person_I2", "married_to"⟩,
        ⟨"Person_I1", "Person_I3", "parent_of"⟩,
        ⟨"Person_I2", "Person_I3", "parent_of"⟩]) := by rfl

/-- C1 counterexample: a level-2 line arriving while the current attribute
(`BIRT`) holds a scalar string does NOT get a nested mapping; the
item-assignment on the string raises `TypeError`, aborting the parse —
refuting the claim that this happens "without raising any error". -/
theorem c1_counterexample :
    parse_lines initState ["0 @I1@ INDI", "1 BIRT 1980", "2 DATE 1 JAN 1980"] =
      Except.error PyError.typeError := by rfl

/-- C2 counterexample: the line `"-1 X Y"` has first field `"-1"`, which is
not a non-negative integer, yet Python `int("-1")` succeeds, so the parse
does not abort: the whole file parses and returns an (empty) graph —
refuting the claim that such a line aborts the entire parse. -/
theorem c2_counterexample :
    parse_file ["-1 X Y"] = Except.ok ([], []) := by rfl

/-- C3 counterexample: the empty line splits into the single field `""`,
and `int("")` raises `ValueError` before the two-field guard is reached, so
the empty line aborts the parse instead of being skipped — refuting the
claim that the empty line is skipped with no failure. -/
theorem c3_counterexample :
    parse_line initState "" = Except.error PyError.valueError := by rfl

/-! ### Relation-loop lemmas (C5, C6) -/

theorem child_rels_filter_married (ho wo : Option AttrVal) (cs : List String) :
    (cs.flatMap (fun c =>
        (match ho with
         | some h => [(⟨"Person_" ++ pyFormatVal h, "Person_" ++ c, "parent_of"⟩ : Relation)]
         | Option.none => []) ++
        (match wo with
         | some w => [(⟨"Person_" ++ pyFormatVal w, "Person_" ++ c, "parent_of"⟩ : Relation)]
         | Option.none => []))).filter (fun r => r.relationType == "married_to") = [] := by
  induction cs with
  | nil => rfl
  | cons c cs' ih =>
    rw [List.flatMap_cons, List.filter_append, ih, List.append_nil, List.filter_append]
    cases ho <;> cases wo <;> simp [List.filter]

theorem child_rels_filter_parent (ho wo : Option AttrVal) (cs : List String) :
    (cs.flatMap (fun c =>
        (match ho with
         | some h => [(⟨"Person_" ++ pyFormatVal h, "Person_" ++ c, "parent_of"⟩ : Relation)]
         | Option.none => []) ++
        (match wo with
         | some w => [(⟨"Person_" ++ pyFormatVal w, "Person_" ++ c, "parent_of"⟩ : Relation)]
         | Option.none => []))).filter (fun r => r.relationType == "parent_of") =
      cs.flatMap (fun c =>
        (match ho with
         | some h => [(⟨"Person_" ++ pyFormatVal h, "Person_" ++ c, "parent_of"⟩ : Relation)]
         | Option.none => []) ++
        (match wo with
         | some w => [(⟨"Person_" ++ pyFormatVal w, "Person_" ++ c, "parent_of"⟩ : Relation)]
         | Option.none => [])) := by
  induction cs with
  | nil => rfl
  | cons c cs' ih =>
    rw [List.flatMap_cons, List.filter_append, List.filter_append, ih]
    cases ho <;> cases wo <;> simp [List.filter]

theorem format_relations_cons (fid : String) (rec : Record) (rest : List (String × Record)) :
    format_relations ((fid, rec) :: rest) = family_rels rec ++ format_relations rest := by
  simp [format_relations]

/-- C5: for every family record with both `'HUSB'` and `'WIFE'` set, the
formatter emits exactly one `married_to` relation, directed husband→wife; a
family missing either parent contributes none.  Stated as an equation: the
`married_to` relations of the output are exactly, in family order, one
husband→wife edge per family having both keys present (so no family yields
a reverse or duplicate edge). -/
theorem c5_married_to_per_family (fams : List (String × Record)) :
    (format_relations fams).filter (fun r => r.relationType == "married_to") =
      fams.filterMap (fun pf =>
        match lookupA "HUSB" pf.2, lookupA "WIFE" pf.2 with
        | some h, some w =>
          some (⟨"Person_" ++ pyFormatVal h, "Person_" ++ pyFormatVal w,
            "married_to"⟩ : Relation)
        | _, _ => Option.none) := by
  induction fams with
  | nil => rfl
  | cons pf rest ih =>
    obtain ⟨fid, rec⟩ := pf
    rw [format_relations_cons, List.filter_append, ih, List.filterMap_cons]
    simp only [family_rels, List.filter_append, child_rels_filter_married, List.append_nil]
    cases lookupA "HUSB" rec <;> cases lookupA "WIFE" rec <;> simp [List.filter]

/-- C6: for every family record and every child in its iterated child
sequence, the formatter emits one `parent_of` relation per parent key set
(0, 1 or 2), in child order, husband before wife.  Stated as an equation:
the `parent_of` relations of the output are exactly, in family order, the
per-child husband-then-wife edges of each family's child sequence. -/
theorem c6_parent_of_per_child (fams : List (String × Record)) :
    (format_relations fams).filter (fun r => r.relationType == "parent_of") =
      fams.flatMap (fun pf =>
        (famChildren pf.2).flatMap (fun c =>
          (match lookupA "HUSB" pf.2 with
           | some h => [(⟨"Person_" ++ pyFormatVal h, "Person_" ++ c, "parent_of"⟩ : Relation)]
           | Option.none => []) ++
          (match lookupA "WIFE" pf.2 with
           | some w => [(⟨"Person_" ++ pyFormatVal w, "Person_" ++ c, "parent_of"⟩ : Relation)]
           | Option.none => []))) := by
  induction fams with
  | nil => rfl
  | cons pf rest ih =>
    obtain ⟨fid, rec⟩ := pf
    rw [format_relations_cons, List.filter_append, ih, List.flatMap_cons]
    simp only [family_rels, List.filter_append, child_rels_filter_parent]
    cases lookupA "HUSB" rec <;> cases lookupA "WIFE" rec <;> simp [List.filter]

/-! ### Tokenizer lemmas -/

theorem pySplitAux_ne_nil (n : Nat) (cs acc : List Char) : pySplitAux n cs acc ≠ [] := by
  induction cs generalizing n acc with
  | nil => simp [pySplitAux]
  | cons c rest ih =>
    by_cases hc : c = ' '
    · cases n with
      | zero => simp [pySplitAux, hc]
      | succ m => simp [pySplitAux, hc]
    · simp only [pySplitAux, if_neg hc]
      exact ih n (c :: acc)

theorem pySplit2_ne_nil (s : String) : pySplit2 s ≠ [] := by
  intro h
  exact pySplitAux_ne_nil 2 s.data [] (List.map_eq_nil_iff.mp h)

theorem lookupA_some_mem_keys {α : Type} {k : String} {v : α} {l : List (String × α)}
    (h : lookupA k l = some v) : k ∈ l.map Prod.fst :=
  List.mem_map.mpr ⟨(k, v), lookupA_some_mem h, rfl⟩

/-- If the first field of a line does not parse as an integer, `parse_line`
raises `ValueError` (the `int(parts[0])` call precedes every other check). -/
theorem parse_line_badlevel {line : String} (st : PState)
    (h : pyInt? ((pySplit2 line).headD "") = Option.none) :
    parse_line st line = Except.error PyError.valueError := by
  cases hs : pySplit2 line with
  | nil => exact absurd hs (pySplit2_ne_nil line)
  | cons p0 rest =>
    rw [hs] at h
    simp only [List.headD_cons] at h
    simp only [parse_line, hs, h]

/-! ### Entity-loop lemmas -/

theorem format_entity_name {pid : String} {rec : Record} {e : Entity}
    (h : format_entity pid rec = Except.ok e) : e.name = "Person_" ++ pid := by
  unfold format_entity at h
  split at h
  · simp at h
  · split at h
    · simp at h
    · injection h with h
      rw [← h]

theorem format_entities_names :
    ∀ {l : List (String × Record)} {es : List Entity},
      format_entities l = Except.ok es →
      es.map Entity.name = l.map (fun p => "Person_" ++ p.1) := by
  intro l
  induction l with
  | nil =>
    intro es h
    simp only [format_entities] at h
    injection h with h
    rw [← h]
    rfl
  | cons p rest ih =>
    intro es h
    obtain ⟨pid, r⟩ := p
    cases hfe : format_entity pid r with
    | error e0 => simp [format_entities, hfe] at h
    | ok e0 =>
      cases hrest : format_entities rest with
      | error e2 => simp [format_entities, hfe, hrest] at h
      | ok es' =>
        simp only [format_entities, hfe, hrest] at h
        injection h with h
        rw [← h]
        simp [format_entity_name hfe, ih hrest]

/-! ### Claim theorems: parser state machine -/

/-- C3 (amended): a line that splits into a single field is skipped — state
unchanged, no failure — provided that field parses as an integer.  (The
claim as frozen also covered the empty line, whose single field `""` does
not parse as an integer and instead aborts the parse; see the
counterexample.) -/
theorem c3_single_field_skipped (st : PState) (line p0 : String) (k : Int)
    (hsplit : pySplit2 line = [p0]) (hint : pyInt? p0 = some k) :
    parse_line st line = Except.ok st := by
  simp only [parse_line, hsplit, hint]

/-- C3 witness: the one-field line `"0"` is skipped on the initial state. -/
theorem c3_witness :
    pySplit2 "0" = ["0"] ∧ pyInt? "0" = some 0 ∧
      parse_line initState "0" = Except.ok initState :=
  ⟨rfl, rfl, c3_single_field_skipped initState "0" "0" 0 rfl rfl⟩

/-- C2 (amended): for every input line whose first field does not parse as
an integer at all (Python `int` accepts signed integers — so `"-1"` parses
and does not abort, see the counterexample — as well as PEP 515
underscores between digits and Unicode decimal digits), the whole parse
aborts: the caller receives a failure and no partial graph. -/
theorem c2_bad_level_aborts (lines : List String) (l : String)
    (hmem : l ∈ lines)
    (hbad : pyInt? ((pySplit2 (pyStrip l)).headD "") = Option.none) :
    ∃ e, parse_file lines = Except.error e := by
  have key : ∀ (ls : List String) (st : PState), l ∈ ls →
      ∃ e, parse_lines st ls = Except.error e := by
    intro ls
    induction ls with
    | nil => intro st hm; cases hm
    | cons a ls' ih =>
      intro st hm
      rcases List.mem_cons.mp hm with h1 | h1
      · subst h1
        refine ⟨PyError.valueError, ?_⟩
        simp only [parse_lines, parse_line_badlevel st hbad]
      · cases hpl : parse_line st (pyStrip a) with
        | error e => exact ⟨e, by simp only [parse_lines, hpl]⟩
        | ok st' =>
          rcases ih st' h1 with ⟨e, he⟩
          exact ⟨e, by simp only [parse_lines, hpl, he]⟩
  rcases key lines initState hmem with ⟨e, he⟩
  exact ⟨e, by simp only [parse_file, he]⟩

/-- C2 witness: the file containing only `"abc @I1@ INDI"` fails whole. -/
theorem c2_witness :
    ("abc @I1@ INDI" ∈ ["abc @I1@ INDI"]) ∧
      pyInt? ((pySplit2 (pyStrip "abc @I1@ INDI")).headD "") = Option.none ∧
      ∃ e, parse_file ["abc @I1@ INDI"] = Except.error e :=
  ⟨List.mem_cons_self _ _, rfl,
    c2_bad_level_aborts ["abc @I1@ INDI"] "abc @I1@ INDI" (List.mem_cons_self _ _) rfl⟩

/-- C8: on a level-0 line the record kind is decided by a substring test on
the whole original line, not by comparing the parsed tag field: `INDI`
anywhere opens an individual; otherwise `FAM` anywhere opens a family;
otherwise the state becomes `NONE`, both stores untouched and no error. -/
theorem c8_level0_dispatch (st : PState) (line p0 p1 : String) (rest : List String)
    (hsplit : pySplit2 line = p0 :: p1 :: rest) (hlvl : pyInt? p0 = some 0) :
    (containsSeq "INDI".data line.data = true →
        parse_line st line = Except.ok { st with
          current := CurEnt.indi (pyReplace p1 "@" ""),
          individuals := updateA (pyReplace p1 "@" "")
            (newRecord (pyReplace p1 "@" "") "INDI") st.individuals }) ∧
    (containsSeq "INDI".data line.data = false →
      containsSeq "FAM".data line.data = true →
        parse_line st line = Except.ok { st with
          current := CurEnt.fam (pyReplace p1 "@" ""),
          families := updateA (pyReplace p1 "@" "")
            (newRecord (pyReplace p1 "@" "") "FAM") st.families }) ∧
    (containsSeq "INDI".data line.data = false →
      containsSeq "FAM".data line.data = false →
        parse_line st line = Except.ok { st with current := CurEnt.none }) := by
  refine ⟨fun hI => ?_, fun hI hF => ?_, fun hI hF => ?_⟩
  · simp [parse_line, hsplit, hlvl, hI]
  · simp [parse_line, hsplit, hlvl, hI, hF]
  · simp [parse_line, hsplit, hlvl, hI, hF]

/-- C8 witness: `"0 @INDIX@ FOO"` opens an individual record purely because
`INDI` occurs inside the pointer text. -/
theorem c8_witness :
    pySplit2 "0 @INDIX@ FOO" = ["0", "@INDIX@", "FOO"] ∧
      pyInt? "0" = some 0 ∧
      containsSeq "INDI".data "0 @INDIX@ FOO".data = true ∧
      parse_line initState "0 @INDIX@ FOO" =
        Except.ok ⟨[("INDIX", [("id", AttrVal.str "INDIX"), ("type", AttrVal.str "INDI")])],
          [], CurEnt.indi "INDIX", Option.none⟩ := by
  refine ⟨rfl, rfl, rfl, ?_⟩
  have h := (c8_level0_dispatch initState "0 @INDIX@ FOO" "0" "@INDIX@" ["FOO"]
    rfl rfl).1 rfl
  exact h

/-- C7: re-declaring a level-0 individual id already present replaces the
record in full (a fresh record carrying only its `'id'`/`'type'` entries,
no attribute of the old record surviving), keeps the id as a key
exactly once at its original creation position, and the emitted entity
sequence keeps one entity per stored id, in store order. -/
theorem c7_redeclare_individual (st : PState) (line p0 p1 : String) (rest : List String)
    (r : Record)
    (hsplit : pySplit2 line = p0 :: p1 :: rest)
    (hlvl : pyInt? p0 = some 0)
    (hI : containsSeq "INDI".data line.data = true)
    (hold : lookupA (pyReplace p1 "@" "") st.individuals = some r)
    (hnd : (st.individuals.map Prod.fst).Nodup) :
    ∃ st', parse_line st line = Except.ok st' ∧
      st'.individuals.map Prod.fst = st.individuals.map Prod.fst ∧
      lookupA (pyReplace p1 "@" "") st'.individuals =
        some (newRecord (pyReplace p1 "@" "") "INDI") ∧
      (st'.individuals.map Prod.fst).count (pyReplace p1 "@" "") = 1 ∧
      ∀ es, format_entities st'.individuals = Except.ok es →
        es.map Entity.name = st.individuals.map (fun p => "Person_" ++ p.1) := by
  refine ⟨{ st with
      current := CurEnt.indi (pyReplace p1 "@" ""),
      individuals := updateA (pyReplace p1 "@" "")
        (newRecord (pyReplace p1 "@" "") "INDI") st.individuals }, ?_, ?_, ?_, ?_, ?_⟩
  · simp [parse_line, hsplit, hlvl, hI]
  · exact keys_updateA hold _
  · exact lookupA_updateA_self _ _ _
  · rw [keys_updateA hold]
    exact List.count_eq_one_of_mem hnd (lookupA_some_mem_keys hold)
  · intro es hes
    rw [format_entities_names hes]
    have hcong : ∀ (l1 l2 : List (String × Record)), l1.map Prod.fst = l2.map Prod.fst →
        l1.map (fun p => "Person_" ++ p.1) = l2.map (fun p => "Person_" ++ p.1) := by
      intro l1 l2 hk
      have := congrArg (List.map (fun s => "Person_" ++ s)) hk
      simpa [List.map_map, Function.comp] using this
    exact hcong _ _ (keys_updateA hold _)

/-- C7 witness: re-declaring `I1` wipes its `NAME` attribute while keeping
its position and uniqueness. -/
theorem c7_witness :
    (let oldRec : Record :=
      [("id", AttrVal.str "I1"), ("type", AttrVal.str "INDI"), ("NAME", AttrVal.str "Old")]
     let st : PState :=
      ⟨[("I1", oldRec), ("I2", [("id", AttrVal.str "I2"), ("type", AttrVal.str "INDI")])],
        [], CurEnt.none, Option.none⟩
     pySplit2 "0 @I1@ INDI" = ["0", "@I1@", "INDI"] ∧
       pyInt? "0" = some 0 ∧
       containsSeq "INDI".data "0 @I1@ INDI".data = true ∧
       lookupA (pyReplace "@I1@" "@" "") st.individuals = some oldRec ∧
       (st.individuals.map Prod.fst).Nodup ∧
       ∃ st', parse_line st "0 @I1@ INDI" = Except.ok st' ∧
         st'.individuals.map Prod.fst = st.individuals.map Prod.fst ∧
         lookupA (pyReplace "@I1@" "@" "") st'.individuals =
           some (newRecord (pyReplace "@I1@" "@" "") "INDI") ∧
         (st'.individuals.map Prod.fst).count (pyReplace "@I1@" "@" "") = 1 ∧
         ∀ es, format_entities st'.individuals = Except.ok es →
           es.map Entity.name = st.individuals.map (fun p => "Person_" ++ p.1)) := by
  refine ⟨rfl, rfl, rfl, rfl, by decide, ?_⟩
  exact c7_redeclare_individual _ "0 @I1@ INDI" "0" "@I1@" ["INDI"]
    [("id", AttrVal.str "I1"), ("type", AttrVal.str "INDI"), ("NAME", AttrVal.str "Old")]
    rfl rfl rfl rfl (by decide)

/-! ### Pointer-stripping lemmas (C10) -/

theorem pyReplaceAux_at : ∀ (fuel : Nat) (cs : List Char), cs.length ≤ fuel →
    pyReplaceAux ['@'] [] fuel cs = cs.filter (fun c => c ≠ '@') := by
  intro fuel
  induction fuel with
  | zero =>
    intro cs hf
    cases cs with
    | nil => rfl
    | cons c rest => simp at hf
  | succ n ih =>
    intro cs hf
    cases cs with
    | nil => rfl
    | cons c rest =>
      have hr : rest.length ≤ n := by
        simp only [List.length_cons] at hf
        omega
      by_cases hc : c = '@'
      · subst hc
        simp [pyReplaceAux, List.isPrefixOf, List.filter, ih rest hr]
      · have hb : ('@' == c) = false := beq_eq_false_iff_ne.mpr (Ne.symm hc)
        simp [pyReplaceAux, List.isPrefixOf, hb, hc, List.filter, ih rest hr]

theorem pyReplace_at_eq_filter (s : String) :
    pyReplace s "@" "" = String.mk (s.data.filter (fun c => c ≠ '@')) := by
  unfold pyReplace
  congr 1
  exact pyReplaceAux_at s.data.length s.data (le_refl _)

/-- C10: every place a pointer token is stored as an identifier — the id of
a new level-0 individual or family record (both the mapping key and the
record's `'id'` entry), the `HUSB`/`WIFE` value, and an appended `CHIL`
id — stores the corresponding field with every `@` character deleted
wherever it occurs (`.replace('@', '')` acts as a filter, not as a
wrapping-delimiter strip), and for `HUSB`/`WIFE`/`CHIL` the value is the
whole third field, internal whitespace included. -/
theorem c10_pointer_stripping :
    (∀ s : String, pyReplace s "@" "" = String.mk (s.data.filter (fun c => c ≠ '@'))) ∧
    (∀ (st : PState) (line p0 p1 : String) (rest : List String),
      pySplit2 line = p0 :: p1 :: rest → pyInt? p0 = some 0 →
      containsSeq "INDI".data line.data = true →
      ∃ st', parse_line st line = Except.ok st' ∧
        st'.current = CurEnt.indi (String.mk (p1.data.filter (fun c => c ≠ '@'))) ∧
        lookupA (String.mk (p1.data.filter (fun c => c ≠ '@'))) st'.individuals =
          some (newRecord (String.mk (p1.data.filter (fun c => c ≠ '@'))) "INDI")) ∧
    (∀ (st : PState) (line p0 p1 : String) (rest : List String),
      pySplit2 line = p0 :: p1 :: rest → pyInt? p0 = some 0 →
      containsSeq "INDI".data line.data = false →
      containsSeq "FAM".data line.data = true →
      ∃ st', parse_line st line = Except.ok st' ∧
        st'.current = CurEnt.fam (String.mk (p1.data.filter (fun c => c ≠ '@'))) ∧
        lookupA (String.mk (p1.data.filter (fun c => c ≠ '@'))) st'.families =
          some (newRecord (String.mk (p1.data.filter (fun c => c ≠ '@'))) "FAM")) ∧
    (∀ (st : PState) (line p0 v : String) (rest2 : List String) (fid : String) (f : Record),
      pySplit2 line = p0 :: "HUSB" :: v :: rest2 → pyInt? p0 = some 1 →
      st.current = CurEnt.fam fid → lookupA fid st.families = some f →
      lookupA "type" f = some (AttrVal.str "FAM") →
      ∃ st', parse_line st line = Except.ok st' ∧
        lookupA fid st'.families =
          some (updateA "HUSB"
            (AttrVal.str (String.mk (v.data.filter (fun c => c ≠ '@')))) f)) ∧
    (∀ (st : PState) (line p0 v : String) (rest2 : List String) (fid : String) (f : Record),
      pySplit2 line = p0 :: "WIFE" :: v :: rest2 → pyInt? p0 = some 1 →
      st.current = CurEnt.fam fid → lookupA fid st.families = some f →
      lookupA "type" f = some (AttrVal.str "FAM") →
      ∃ st', parse_line st line = Except.ok st' ∧
        lookupA fid st'.families =
          some (updateA "WIFE"
            (AttrVal.str (String.mk (v.data.filter (fun c => c ≠ '@')))) f)) ∧
    (∀ (st : PState) (line p0 v : String) (rest2 : List String) (fid : String) (f : Record),
      pySplit2 line = p0 :: "CHIL" :: v :: rest2 → pyInt? p0 = some 1 →
      st.current = CurEnt.fam fid → lookupA fid st.families = some f →
      lookupA "type" f = some (AttrVal.str "FAM") →
      (lookupA "CHIL" f = Option.none ∨ ∃ l, lookupA "CHIL" f = some (AttrVal.lst l)) →
      ∃ st' l0, parse_line st line = Except.ok st' ∧
        (lookupA "CHIL" f = Option.none → l0 = []) ∧
        (∀ l, lookupA "CHIL" f = some (AttrVal.lst l) → l0 = l) ∧
        lookupA fid st'.families =
          some (updateA "CHIL"
            (AttrVal.lst (l0 ++ [String.mk (v.data.filter (fun c => c ≠ '@'))])) f)) := by
  refine ⟨pyReplace_at_eq_filter, ?_, ?_, ?_, ?_, ?_⟩
  · intro st line p0 p1 rest hsplit hlvl hI
    refine ⟨{ st with
        current := CurEnt.indi (pyReplace p1 "@" ""),
        individuals := updateA (pyReplace p1 "@" "")
          (newRecord (pyReplace p1 "@" "") "INDI") st.individuals }, ?_, ?_, ?_⟩
    · simp [parse_line, hsplit, hlvl, hI]
    · simp [pyReplace_at_eq_filter]
    · rw [← pyReplace_at_eq_filter]
      exact lookupA_updateA_self _ _ _
  · intro st line p0 p1 rest hsplit hlvl hI hF
    refine ⟨{ st with
        current := CurEnt.fam (pyReplace p1 "@" ""),
        families := updateA (pyReplace p1 "@" "")
          (newRecord (pyReplace p1 "@" "") "FAM") st.families }, ?_, ?_, ?_⟩
    · simp [parse_line, hsplit, hlvl, hI, hF]
    · simp [pyReplace_at_eq_filter]
    · rw [← pyReplace_at_eq_filter]
      exact lookupA_updateA_self _ _ _
  · intro st line p0 v rest2 fid f hsplit hlvl hcur hlook htype
    refine ⟨{ st with
        families := updateA fid
          (updateA "HUSB" (AttrVal.str (pyReplace v "@" "")) f) st.families }, ?_, ?_⟩
    · simp [parse_line, hsplit, hlvl, hcur, hlook, htype, famStep]
    · rw [← pyReplace_at_eq_filter]
      exact lookupA_updateA_self _ _ _
  · intro st line p0 v rest2 fid f hsplit hlvl hcur hlook htype
    refine ⟨{ st with
        families := updateA fid
          (updateA "WIFE" (AttrVal.str (pyReplace v "@" "")) f) st.families }, ?_, ?_⟩
    · simp [parse_line, hsplit, hlvl, hcur, hlook, htype, famStep]
    · rw [← pyReplace_at_eq_filter]
      exact lookupA_updateA_self _ _ _
  · intro st line p0 v rest2 fid f hsplit hlvl hcur hlook htype hchil
    rcases hchil with hnone | ⟨l, hl⟩
    · refine ⟨{ st with
          families := updateA fid
            (updateA "CHIL" (AttrVal.lst [pyReplace v "@" ""]) f) st.families },
        [], ?_, fun _ => rfl, ?_, ?_⟩
      · simp [parse_line, hsplit, hlvl, hcur, hlook, htype, famStep, hnone]
      · intro l hll
        rw [hnone] at hll
        cases hll
      · rw [← pyReplace_at_eq_filter]
        simp only [List.nil_append]
        exact lookupA_updateA_self _ _ _
    · refine ⟨{ st with
          families := updateA fid
            (updateA "CHIL" (AttrVal.lst (l ++ [pyReplace v "@" ""])) f) st.families },
        l, ?_, ?_, ?_, ?_⟩
      · simp [parse_line, hsplit, hlvl, hcur, hlook, htype, famStep, hl]
      · intro hn
        rw [hn] at hl
        cases hl
      · intro l2 hl2
        have h12 : AttrVal.lst l = AttrVal.lst l2 := Option.some.inj (hl.symm.trans hl2)
        exact AttrVal.lst.inj h12
      · rw [← pyReplace_at_eq_filter]
        exact lookupA_updateA_self _ _ _

/-- C10 witness: `"1 HUSB @I 1@x@"` on an open family stores husband id
`"I 1x"` — the whole third field with every `@` removed, internal space
kept. -/
theorem c10_witness :
    pySplit2 "1 HUSB @I 1@x@" = ["1", "HUSB", "@I 1@x@"] ∧
      pyInt? "1" = some 1 ∧
      (∃ st', parse_line
            ⟨[], [("F1", [("id", AttrVal.str "F1"), ("type", AttrVal.str "FAM")])],
              CurEnt.fam "F1", Option.none⟩
            "1 HUSB @I 1@x@" = Except.ok st' ∧
        lookupA "F1" st'.families =
          some (updateA "HUSB"
            (AttrVal.str (String.mk ("@I 1@x@".data.filter (fun c => c ≠ '@'))))
            [("id", AttrVal.str "F1"), ("type", AttrVal.str "FAM")])) := by
  refine ⟨rfl, rfl, ?_⟩
  exact c10_pointer_stripping.2.2.2.1 _ "1 HUSB @I 1@x@" "1" "@I 1@x@" [] "F1"
    [("id", AttrVal.str "F1"), ("type", AttrVal.str "FAM")] rfl rfl rfl rfl rfl

/-- C1 (amended): while the current record is an open individual (its
mutable `'type'` entry reads `INDI`), a level-2 line with a truthy
current-attribute context succeeds and ends with a nested mapping under
that attribute containing the level-2 tag mapped to the remainder (or `""`
when absent) — provided the attribute key currently holds no value or
already holds a nested mapping.  (When it holds a scalar string — e.g. a
level-1 remainder, or the built-in `'id'`/`'type'` entries — or a list,
the item assignment instead raises `TypeError`; see the
counterexample.) -/
theorem c1_level2_nested (st : PState) (line p0 p1 : String) (rest2 : List String)
    (iid tag : String) (rec : Record)
    (hsplit : pySplit2 line = p0 :: p1 :: rest2)
    (hlvl : pyInt? p0 = some 2)
    (hcur : st.current = CurEnt.indi iid)
    (hrec : lookupA iid st.individuals = some rec)
    (htype : lookupA "type" rec = some (AttrVal.str "INDI"))
    (htag : st.currentTag = some tag)
    (hne : tag ≠ "")
    (hcase : lookupA tag rec = Option.none ∨
      ∃ m, lookupA tag rec = some (AttrVal.map m)) :
    ∃ st' rec' m', parse_line st line = Except.ok st' ∧
      lookupA iid st'.individuals = some rec' ∧
      lookupA tag rec' = some (AttrVal.map m') ∧
      lookupA p1 m' = some (rest2.headD "") := by
  rcases hcase with hnone | ⟨m, hm⟩
  · refine ⟨{ st with
        individuals := updateA iid
          (updateA tag (AttrVal.map [(p1, rest2.headD "")]) rec) st.individuals },
      updateA tag (AttrVal.map [(p1, rest2.headD "")]) rec,
      [(p1, rest2.headD "")], ?_, ?_, ?_, ?_⟩
    · simp [parse_line, hsplit, hlvl, hcur, hrec, htype, indiStep, htag, hne, hnone]
    · exact lookupA_updateA_self _ _ _
    · exact lookupA_updateA_self _ _ _
    · simp [lookupA]
  · refine ⟨{ st with
        individuals := updateA iid
          (updateA tag (AttrVal.map (updateA p1 (rest2.headD "") m)) rec)
          st.individuals },
      updateA tag (AttrVal.map (updateA p1 (rest2.headD "") m)) rec,
      updateA p1 (rest2.headD "") m, ?_, ?_, ?_, ?_⟩
    · simp [parse_line, hsplit, hlvl, hcur, hrec, htype, indiStep, htag, hne, hm]
    · exact lookupA_updateA_self _ _ _
    · exact lookupA_updateA_self _ _ _
    · exact lookupA_updateA_self _ _ _

/-- C1 witness: `"2 DATE 1 JAN 1980"` under current attribute `BIRT`
(holding no value on the open individual) creates
`BIRT ↦ \x7bDATE: "1 JAN 1980"\x7d`. -/
theorem c1_witness :
    (let rec0 : Record := [("id", AttrVal.str "I1"), ("type", AttrVal.str "INDI")]
     let st : PState := ⟨[("I1", rec0)], [], CurEnt.indi "I1", some "BIRT"⟩
     pySplit2 "2 DATE 1 JAN 1980" = ["2", "DATE", "1 JAN 1980"] ∧
       pyInt? "2" = some 2 ∧
       lookupA "type" rec0 = some (AttrVal.str "INDI") ∧
       ("BIRT" : String) ≠ "" ∧
       lookupA "BIRT" rec0 = Option.none ∧
       ∃ st' rec' m', parse_line st "2 DATE 1 JAN 1980" = Except.ok st' ∧
         lookupA "I1" st'.individuals = some rec' ∧
         lookupA "BIRT" rec' = some (AttrVal.map m') ∧
         lookupA "DATE" m' = some "1 JAN 1980") := by
  refine ⟨rfl, rfl, rfl, by decide, rfl, ?_⟩
  exact c1_level2_nested _ "2 DATE 1 JAN 1980" "2" "DATE" ["1 JAN 1980"] "I1" "BIRT"
    [("id", AttrVal.str "I1"), ("type", AttrVal.str "INDI")]
    rfl rfl rfl rfl rfl rfl (by decide) (Or.inl rfl)

/-! ### Stripped-line lemmas: the third split field is never empty -/

theorem head?_dropWhile_not {p : Char → Bool} :
    ∀ {l : List Char} {a : Char}, ((l.dropWhile p).head? = some a) → p a = false := by
  intro l
  induction l with
  | nil => intro a h; simp [List.dropWhile] at h
  | cons c rest ih =>
    intro a h
    rw [List.dropWhile_cons] at h
    by_cases hc : p c = true
    · rw [if_pos hc] at h
      exact ih h
    · rw [if_neg hc] at h
      simp only [List.head?_cons, Option.some.injEq] at h
      rw [← h]
      simpa using hc

theorem pyStrip_getLast_not_space {s : String} {c : Char}
    (h : (pyStrip s).data.getLast? = some c) : isPySpace c = false := by
  unfold pyStrip at h
  simp only [List.getLast?_reverse] at h
  exact head?_dropWhile_not h

theorem pySplitAux_space_zero (rest acc : List Char) :
    pySplitAux 0 (' ' :: rest) acc = [acc.reverse ++ ' ' :: rest] := rfl

theorem pySplitAux_space_succ (m : Nat) (rest acc : List Char) :
    pySplitAux (m + 1) (' ' :: rest) acc = acc.reverse :: pySplitAux m rest [] := rfl

theorem pySplitAux_nonspace {c : Char} (hc : ¬ c = ' ') (n : Nat) (rest acc : List Char) :
    pySplitAux n (c :: rest) acc = pySplitAux n rest (c :: acc) := by
  have he : pySplitAux n (c :: rest) acc =
      if c = ' ' then
        (match n with
         | 0 => [acc.reverse ++ c :: rest]
         | m + 1 => acc.reverse :: pySplitAux m rest [])
      else pySplitAux n rest (c :: acc) := rfl
  rw [he, if_neg hc]

theorem pySplitAux_getLast_ne_nil :
    ∀ (cs : List Char) (n : Nat) (acc : List Char), cs ≠ [] →
      cs.getLast? ≠ some ' ' → (pySplitAux n cs acc).getLast? ≠ some [] := by
  intro cs
  induction cs with
  | nil => intro n acc h; exact absurd rfl h
  | cons c rest ih =>
    intro n acc _ hlast
    by_cases hr : rest = []
    · subst hr
      have hc : c ≠ ' ' := by
        intro hc
        exact hlast (by simp [hc])
      simp [pySplitAux, hc]
    · have hlast' : rest.getLast? ≠ some ' ' := by
        cases rest with
        | nil => exact absurd rfl hr
        | cons y ys => rwa [List.getLast?_cons_cons] at hlast
      by_cases hc : c = ' '
      · subst hc
        cases n with
        | zero =>
          rw [pySplitAux_space_zero]
          simp
        | succ m =>
          rw [pySplitAux_space_succ]
          have hih := ih m [] hr hlast'
          cases hsplit : pySplitAux m rest [] with
          | nil => exact absurd hsplit (pySplitAux_ne_nil m rest [])
          | cons x xs =>
            rw [hsplit] at hih
            rw [List.getLast?_cons_cons]
            exact hih
      · rw [pySplitAux_nonspace hc]
        exact ih n (c :: acc) hr hlast'

theorem pySplitAux_length_le :
    ∀ (cs : List Char) (n : Nat) (acc : List Char), (pySplitAux n cs acc).length ≤ n + 1 := by
  intro cs
  induction cs with
  | nil => intro n acc; simp [pySplitAux]
  | cons c rest ih =>
    intro n acc
    by_cases hc : c = ' '
    · subst hc
      cases n with
      | zero =>
        rw [pySplitAux_space_zero]
        simp
      | succ m =>
        rw [pySplitAux_space_succ]
        simp only [List.length_cons]
        have := ih m []
        omega
    · rw [pySplitAux_nonspace hc]
      exact ih n (c :: acc)

/-- On a stripped line, a third split field is never the empty string: the
split has at most three fields, so the third is the last, and a stripped
line does not end in a space. -/
theorem pySplit2_strip_third_ne {s : String} {p0 p1 p2 : String} {rest : List String}
    (h : pySplit2 (pyStrip s) = p0 :: p1 :: p2 :: rest) : p2 ≠ "" := by
  have hlen := pySplitAux_length_le (pyStrip s).data 2 []
  unfold pySplit2 at h
  obtain ⟨a0, a1, a2, hshape⟩ :
      ∃ a0 a1 a2, pySplitAux 2 (pyStrip s).data [] = [a0, a1, a2] := by
    rcases haux : pySplitAux 2 (pyStrip s).data [] with _ | ⟨a0, _ | ⟨a1, _ | ⟨a2, tail⟩⟩⟩
    · rw [haux] at h; simp at h
    · rw [haux] at h; simp at h
    · rw [haux] at h; simp at h
    · rw [haux] at hlen
      simp only [List.length_cons] at hlen
      have htail : tail = [] := List.length_eq_zero.mp (by omega)
      exact ⟨a0, a1, a2, by rw [htail]⟩
  rw [hshape] at h
  simp only [List.map_cons, List.map_nil, List.cons.injEq] at h
  obtain ⟨h0, h1, h2, hrest⟩ := h
  have hne : (pyStrip s).data ≠ [] := by
    intro hnil
    rw [hnil] at hshape
    simp [pySplitAux] at hshape
  have hlast : (pyStrip s).data.getLast? ≠ some ' ' := by
    intro hsp
    have hns := pyStrip_getLast_not_space hsp
    simp [isPySpace] at hns
  have hgl := pySplitAux_getLast_ne_nil (pyStrip s).data 2 [] hne hlast
  rw [hshape] at hgl
  simp only [List.getLast?_cons_cons, List.getLast?_singleton] at hgl
  have ha2 : a2 ≠ [] := by
    intro hnil
    exact hgl (by rw [hnil])
  intro hp2
  apply ha2
  have : (String.mk a2).data = ("" : String).data := by rw [h2, hp2]
  simpa using this

/-! ### Store-invariant lemmas: a stored NAME entry is always truthy -/

theorem invS_of_individuals_eq {st st' : PState}
    (h : st'.individuals = st.individuals) (inv : InvS st) : InvS st' := by
  intro p hp
  rw [h] at hp
  exact inv p hp

theorem invS_updateA_ind {st st' : PState} (inv : InvS st) {id : String} {rec : Record}
    (hr : nameOk rec)
    (h : st'.individuals = updateA id rec st.individuals) : InvS st' := by
  intro p hp
  rw [h] at hp
  rcases mem_updateA hp with h1 | h1
  · rw [h1]
    exact hr
  · exact inv p h1

theorem nameOk_newRecord (id ty : String) : nameOk (newRecord id ty) := by
  intro v h
  simp [newRecord, lookupA] at h

theorem nameOk_updateA_of_ne {rec : Record} {tag : String} {w : AttrVal}
    (h : nameOk rec) (hne : tag ≠ "NAME") : nameOk (updateA tag w rec) := by
  intro v hv
  rw [lookupA_updateA_ne (Ne.symm hne)] at hv
  exact h v hv

theorem nameOk_updateA_truthy {rec : Record} {tag : String} {w : AttrVal}
    (h : nameOk rec) (hw : truthyVal w = true) : nameOk (updateA tag w rec) := by
  intro v hv
  rcases lookupA_updateA_cases hv with h1 | h1
  · rw [h1]
    exact hw
  · exact h v h1

theorem truthy_str {v : String} (hv : v ≠ "") : truthyVal (AttrVal.str v) = true := by
  simp [truthyVal, hv]

theorem truthy_map_single (p1 val : String) :
    truthyVal (AttrVal.map [(p1, val)]) = true := by
  simp [truthyVal]

theorem truthy_map_updateA (p1 val : String) (m : List (String × String)) :
    truthyVal (AttrVal.map (updateA p1 val m)) = true := by
  simp only [truthyVal, ne_eq, decide_not]
  simp [updateA_ne_nil p1 val m]

theorem invS_init : InvS initState := by
  intro p hp
  simp [initState] at hp

/-- The `IN_INDIVIDUAL` step preserves a truthy `NAME`: the only scalar it
writes is a (never-empty, by hypothesis) third split field, and the nested
dicts it writes are non-empty. -/
theorem indiStep_nameOk {level : Int} {p1 : String} {rest2 : List String}
    {ctag : Option String} {rec rec' : Record} {tag' : Option String}
    (h : indiStep level p1 rest2 ctag rec = Except.ok (rec', tag'))
    (hrec : nameOk rec)
    (hv3 : ∀ v r3, rest2 = v :: r3 → v ≠ "") : nameOk rec' := by
  by_cases h1 : level = 1
  · cases rest2 with
    | nil =>
      have hrun : indiStep level p1 [] ctag rec = Except.ok (rec, some p1) := by
        simp [indiStep, h1]
      rw [hrun] at h
      injection h with h
      injection h with ha hb
      rw [← ha]
      exact hrec
    | cons v r3 =>
      have hrun : indiStep level p1 (v :: r3) ctag rec =
          Except.ok (updateA p1 (AttrVal.str v) rec, some p1) := by
        simp [indiStep, h1]
      rw [hrun] at h
      injection h with h
      injection h with ha hb
      rw [← ha]
      exact nameOk_updateA_truthy hrec (truthy_str (hv3 v r3 rfl))
  · by_cases h2 : level = 2
    · cases htag : ctag with
      | none =>
        have hrun : indiStep level p1 rest2 ctag rec = Except.ok (rec, ctag) := by
          simp [indiStep, h1, h2, htag]
        rw [hrun] at h
        injection h with h
        injection h with ha hb
        rw [← ha]
        exact hrec
      | some tag =>
        by_cases htn : tag = ""
        · have hrun : indiStep level p1 rest2 ctag rec = Except.ok (rec, ctag) := by
            simp [indiStep, h1, h2, htag, htn]
          rw [hrun] at h
          injection h with h
          injection h with ha hb
          rw [← ha]
          exact hrec
        · cases hattr : lookupA tag rec with
          | none =>
            have hrun : indiStep level p1 rest2 ctag rec =
                Except.ok (updateA tag (AttrVal.map [(p1, rest2.headD "")]) rec, ctag) := by
              simp [indiStep, h1, h2, htag, htn, hattr]
            rw [hrun] at h
            injection h with h
            injection h with ha hb
            rw [← ha]
            exact nameOk_updateA_truthy hrec (truthy_map_single _ _)
          | some av =>
            cases av with
            | str s0 =>
              have hrun : indiStep level p1 rest2 ctag rec =
                  Except.error PyError.typeError := by
                simp [indiStep, h1, h2, htag, htn, hattr]
              rw [hrun] at h
              simp at h
            | lst l0 =>
              have hrun : indiStep level p1 rest2 ctag rec =
                  Except.error PyError.typeError := by
                simp [indiStep, h1, h2, htag, htn, hattr]
              rw [hrun] at h
              simp at h
            | map m =>
              have hrun : indiStep level p1 rest2 ctag rec =
                  Except.ok
                    (updateA tag (AttrVal.map (updateA p1 (rest2.headD "") m)) rec,
                     ctag) := by
                simp [indiStep, h1, h2, htag, htn, hattr]
              rw [hrun] at h
              injection h with h
              injection h with ha hb
              rw [← ha]
              exact nameOk_updateA_truthy hrec (truthy_map_updateA _ _ _)
    · have hrun : indiStep level p1 rest2 ctag rec = Except.ok (rec, ctag) := by
        simp [indiStep, h1, h2]
      rw [hrun] at h
      injection h with h
      injection h with ha hb
      rw [← ha]
      exact hrec

/-- The `IN_FAMILY` step never touches the `NAME` key. -/
theorem famStep_nameOk {level : Int} {p1 : String} {rest2 : List String}
    {rec rec' : Record}
    (h : famStep level p1 rest2 rec = Except.ok rec')
    (hrec : nameOk rec) : nameOk rec' := by
  by_cases h1 : level = 1
  · cases rest2 with
    | nil =>
      have hrun : famStep level p1 [] rec = Except.ok rec := by
        simp [famStep, h1]
      rw [hrun] at h
      injection h with h
      rw [← h]
      exact hrec
    | cons v r3 =>
      by_cases hh : p1 = "HUSB"
      · have hrun : famStep level p1 (v :: r3) rec =
            Except.ok (updateA p1 (AttrVal.str (pyReplace v "@" "")) rec) := by
          simp [famStep, h1, hh]
        rw [hrun] at h
        injection h with h
        rw [← h]
        exact nameOk_updateA_of_ne hrec (by rw [hh]; decide)
      · by_cases hw : p1 = "WIFE"
        · have hrun : famStep level p1 (v :: r3) rec =
              Except.ok (updateA p1 (AttrVal.str (pyReplace v "@" "")) rec) := by
            simp [famStep, h1, hh, hw]
          rw [hrun] at h
          injection h with h
          rw [← h]
          exact nameOk_updateA_of_ne hrec (by rw [hw]; decide)
        · by_cases hc : p1 = "CHIL"
          · cases hchil : lookupA "CHIL" rec with
            | none =>
              have hrun : famStep level p1 (v :: r3) rec =
                  Except.ok (updateA "CHIL" (AttrVal.lst [pyReplace v "@" ""]) rec) := by
                simp [famStep, h1, hh, hw, hc, hchil]
              rw [hrun] at h
              injection h with h
              rw [← h]
              exact nameOk_updateA_of_ne hrec (by decide)
            | some av =>
              cases av with
              | str s0 =>
                have hrun : famStep level p1 (v :: r3) rec =
                    Except.error PyError.attributeError := by
                  simp [famStep, h1, hh, hw, hc, hchil]
                rw [hrun] at h
                simp at h
              | map m =>
                have hrun : famStep level p1 (v :: r3) rec =
                    Except.error PyError.attributeError := by
                  simp [famStep, h1, hh, hw, hc, hchil]
                rw [hrun] at h
                simp at h
              | lst l =>
                have hrun : famStep level p1 (v :: r3) rec =
                    Except.ok
                      (updateA "CHIL" (AttrVal.lst (l ++ [pyReplace v "@" ""])) rec) := by
                  simp [famStep, h1, hh, hw, hc, hchil]
                rw [hrun] at h
                injection h with h
                rw [← h]
                exact nameOk_updateA_of_ne hrec (by decide)
          · have hrun : famStep level p1 (v :: r3) rec = Except.ok rec := by
              simp [famStep, h1, hh, hw, hc]
            rw [hrun] at h
            injection h with h
            rw [← h]
            exact hrec
  · have hrun : famStep level p1 rest2 rec = Except.ok rec := by
      simp [famStep, h1]
    rw [hrun] at h
    injection h with h
    rw [← h]
    exact hrec

/-- `parse_line` on a stripped line preserves the `NAME` invariant of the
individual store. -/
theorem parse_line_inv {st st' : PState} {s : String}
    (h : parse_line st (pyStrip s) = Except.ok st') (inv : InvS st) : InvS st' := by
  cases hs : pySplit2 (pyStrip s) with
  | nil =>
    have hrun : parse_line st (pyStrip s) = Except.ok st := by
      simp [parse_line, hs]
    rw [hrun] at h
    injection h with h
    rw [← h]
    exact inv
  | cons p0 rest =>
    cases hint : pyInt? p0 with
    | none =>
      have hrun : parse_line st (pyStrip s) = Except.error PyError.valueError := by
        simp [parse_line, hs, hint]
      rw [hrun] at h
      simp at h
    | some level =>
      cases rest with
      | nil =>
        have hrun : parse_line st (pyStrip s) = Except.ok st := by
          simp [parse_line, hs, hint]
        rw [hrun] at h
        injection h with h
        rw [← h]
        exact inv
      | cons p1 rest2 =>
        have hv3 : ∀ v r3, rest2 = v :: r3 → v ≠ "" := by
          intro v r3 hr
          rw [hr] at hs
          exact pySplit2_strip_third_ne hs
        by_cases h0 : level = 0
        · subst h0
          by_cases hI : containsSeq "INDI".data (pyStrip s).data = true
          · have hrun : parse_line st (pyStrip s) = Except.ok { st with
                current := CurEnt.indi (pyReplace p1 "@" ""),
                individuals := updateA (pyReplace p1 "@" "")
                  (newRecord (pyReplace p1 "@" "") "INDI") st.individuals } := by
              simp [parse_line, hs, hint, hI]
            rw [hrun] at h
            injection h with h
            rw [← h]
            exact invS_updateA_ind inv (nameOk_newRecord _ _) rfl
          · have hI' : containsSeq "INDI".data (pyStrip s).data = false := by
              simpa using hI
            by_cases hF : containsSeq "FAM".data (pyStrip s).data = true
            · have hrun : parse_line st (pyStrip s) = Except.ok { st with
                  current := CurEnt.fam (pyReplace p1 "@" ""),
                  families := updateA (pyReplace p1 "@" "")
                    (newRecord (pyReplace p1 "@" "") "FAM") st.families } := by
                simp [parse_line, hs, hint, hI', hF]
              rw [hrun] at h
              injection h with h
              rw [← h]
              exact invS_of_individuals_eq rfl inv
            · have hF' : containsSeq "FAM".data (pyStrip s).data = false := by
                simpa using hF
              have hrun : parse_line st (pyStrip s) =
                  Except.ok { st with current := CurEnt.none } := by
                simp [parse_line, hs, hint, hI', hF']
              rw [hrun] at h
              injection h with h
              rw [← h]
              exact invS_of_individuals_eq rfl inv
        · cases hcur : st.current with
          | none =>
            have hrun : parse_line st (pyStrip s) = Except.ok st := by
              simp [parse_line, hs, hint, h0, hcur]
            rw [hrun] at h
            injection h with h
            rw [← h]
            exact inv
          | indi iid =>
            cases hrec : lookupA iid st.individuals with
            | none =>
              have hrun : parse_line st (pyStrip s) = Except.ok st := by
                simp [parse_line, hs, hint, h0, hcur, hrec]
              rw [hrun] at h
              injection h with h
              rw [← h]
              exact inv
            | some rec =>
              cases htv : lookupA "type" rec with
              | none =>
                have hrun : parse_line st (pyStrip s) =
                    Except.error PyError.keyError := by
                  simp [parse_line, hs, hint, h0, hcur, hrec, htv]
                rw [hrun] at h
                simp at h
              | some tv =>
                by_cases hIt : tv = AttrVal.str "INDI"
                · cases hstep : indiStep level p1 rest2 st.currentTag rec with
                  | error e =>
                    have hrun : parse_line st (pyStrip s) = Except.error e := by
                      simp [parse_line, hs, hint, h0, hcur, hrec, htv, hIt, hstep]
                    rw [hrun] at h
                    simp at h
                  | ok rt =>
                    obtain ⟨rec', tag'⟩ := rt
                    have hrun : parse_line st (pyStrip s) = Except.ok { st with
                        currentTag := tag',
                        individuals := updateA iid rec' st.individuals } := by
                      simp [parse_line, hs, hint, h0, hcur, hrec, htv, hIt, hstep]
                    rw [hrun] at h
                    injection h with h
                    rw [← h]
                    exact invS_updateA_ind inv
                      (indiStep_nameOk hstep (inv (iid, rec) (lookupA_some_mem hrec)) hv3)
                      rfl
                · by_cases hFt : tv = AttrVal.str "FAM"
                  · cases hstep : famStep level p1 rest2 rec with
                    | error e =>
                      have hrun : parse_line st (pyStrip s) = Except.error e := by
                        simp [parse_line, hs, hint, h0, hcur, hrec, htv, hIt, hFt, hstep]
                      rw [hrun] at h
                      simp at h
                    | ok rec' =>
                      have hrun : parse_line st (pyStrip s) = Except.ok { st with
                          individuals := updateA iid rec' st.individuals } := by
                        simp [parse_line, hs, hint, h0, hcur, hrec, htv, hIt, hFt, hstep]
                      rw [hrun] at h
                      injection h with h
                      rw [← h]
                      exact invS_updateA_ind inv
                        (famStep_nameOk hstep (inv (iid, rec) (lookupA_some_mem hrec)))
                        rfl
                  · have hrun : parse_line st (pyStrip s) = Except.ok st := by
                      simp [parse_line, hs, hint, h0, hcur, hrec, htv, hIt, hFt]
                    rw [hrun] at h
                    injection h with h
                    rw [← h]
                    exact inv
          | fam fid =>
            cases hrec : lookupA fid st.families with
            | none =>
              have hrun : parse_line st (pyStrip s) = Except.ok st := by
                simp [parse_line, hs, hint, h0, hcur, hrec]
              rw [hrun] at h
              injection h with h
              rw [← h]
              exact inv
            | some rec =>
              cases htv : lookupA "type" rec with
              | none =>
                have hrun : parse_line st (pyStrip s) =
                    Except.error PyError.keyError := by
                  simp [parse_line, hs, hint, h0, hcur, hrec, htv]
                rw [hrun] at h
                simp at h
              | some tv =>
                by_cases hIt : tv = AttrVal.str "INDI"
                · cases hstep : indiStep level p1 rest2 st.currentTag rec with
                  | error e =>
                    have hrun : parse_line st (pyStrip s) = Except.error e := by
                      simp [parse_line, hs, hint, h0, hcur, hrec, htv, hIt, hstep]
                    rw [hrun] at h
                    simp at h
                  | ok rt =>
                    obtain ⟨rec', tag'⟩ := rt
                    have hrun : parse_line st (pyStrip s) = Except.ok { st with
                        currentTag := tag',
                        families := updateA fid rec' st.families } := by
                      simp [parse_line, hs, hint, h0, hcur, hrec, htv, hIt, hstep]
                    rw [hrun] at h
                    injection h with h
                    rw [← h]
                    exact invS_of_individuals_eq rfl inv
                · by_cases hFt : tv = AttrVal.str "FAM"
                  · cases hstep : famStep level p1 rest2 rec with
                    | error e =>
                      have hrun : parse_line st (pyStrip s) = Except.error e := by
                        simp [parse_line, hs, hint, h0, hcur, hrec, htv, hIt, hFt, hstep]
                      rw [hrun] at h
                      simp at h
                    | ok rec' =>
                      have hrun : parse_line st (pyStrip s) = Except.ok { st with
                          families := updateA fid rec' st.families } := by
                        simp [parse_line, hs, hint, h0, hcur, hrec, htv, hIt, hFt, hstep]
                      rw [hrun] at h
                      injection h with h
                      rw [← h]
                      exact invS_of_individuals_eq rfl inv
                  · have hrun : parse_line st (pyStrip s) = Except.ok st := by
                      simp [parse_line, hs, hint, h0, hcur, hrec, htv, hIt, hFt]
                    rw [hrun] at h
                    injection h with h
                    rw [← h]
                    exact inv

theorem parse_lines_inv :
    ∀ (lines : List String) (st st' : PState),
      parse_lines st lines = Except.ok st' → InvS st → InvS st' := by
  intro lines
  induction lines with
  | nil =>
    intro st st' h inv
    simp only [parse_lines] at h
    injection h with h
    rw [← h]
    exact inv
  | cons l ls ih =>
    intro st st' h inv
    cases hpl : parse_line st (pyStrip l) with
    | error e =>
      simp only [parse_lines, hpl] at h
      simp at h
    | ok st1 =>
      simp only [parse_lines, hpl] at h
      exact ih st1 st' h (parse_line_inv hpl inv)

theorem format_entity_obs_head {pid : String} {rec : Record} {e : Entity}
    (h : format_entity pid rec = Except.ok e) :
    e.observations.head? = some ("Name: " ++ derived_name pid rec) := by
  unfold format_entity at h
  split at h
  · simp at h
  · split at h
    · simp at h
    · injection h with h
      rw [← h]
      rfl

theorem format_entities_name_obs :
    ∀ (l : List (String × Record)) (es : List Entity),
      format_entities l = Except.ok es →
      (∀ p ∈ l, nameOk p.2) →
      List.Forall₂ (fun (p : String × Record) (e : Entity) =>
        match lookupA "NAME" p.2 with
        | some v => truthyVal v = true ∧
            e.observations.head? = some ("Name: " ++ pyFormatVal v)
        | Option.none => e.observations.head? = some ("Name: Unknown_" ++ p.1)) l es := by
  intro l
  induction l with
  | nil =>
    intro es h _
    simp only [format_entities] at h
    injection h with h
    rw [← h]
    exact List.Forall₂.nil
  | cons p rest ih =>
    intro es h hin
    obtain ⟨pid, rec⟩ := p
    cases hfe : format_entity pid rec with
    | error e0 => simp [format_entities, hfe] at h
    | ok e0 =>
      cases hrest : format_entities rest with
      | error e2 => simp [format_entities, hfe, hrest] at h
      | ok es' =>
        simp only [format_entities, hfe, hrest] at h
        injection h with h
        rw [← h]
        refine List.Forall₂.cons ?_ (ih es' hrest ?_)
        · have hobs := format_entity_obs_head hfe
          cases hname : lookupA "NAME" rec with
          | none =>
            simp only [hname]
            rw [hobs]
            simp only [derived_name, hname]
            rfl
          | some v =>
            simp only [hname]
            constructor
            · exact hin (pid, rec) (List.mem_cons_self _ _) v hname
            · rw [hobs]
              simp only [derived_name, hname]
        · intro q hq
          exact hin q (List.mem_cons_of_mem _ hq)

/-- C9: in any store produced by the parse loop, every emitted entity's
`"Name: ..."` observation uses the stored `NAME` attribute when it is
present (and such an attribute is then necessarily non-empty — so
"present and non-empty" and "present" coincide on completed stores), and
the synthesized `"Unknown_" + id` otherwise. -/
theorem c9_name_observation (lines : List String) (st : PState) (es : List Entity)
    (hparse : parse_lines initState lines = Except.ok st)
    (hfmt : format_entities st.individuals = Except.ok es) :
    List.Forall₂ (fun (p : String × Record) (e : Entity) =>
      match lookupA "NAME" p.2 with
      | some v => truthyVal v = true ∧
          e.observations.head? = some ("Name: " ++ pyFormatVal v)
      | Option.none => e.observations.head? = some ("Name: Unknown_" ++ p.1))
      st.individuals es := by
  have inv : InvS st := parse_lines_inv lines initState st hparse invS_init
  exact format_entities_name_obs st.individuals es hfmt inv

/-- C9 witness: a two-individual store where `I1` carries a `NAME` and `I2`
does not. -/
theorem c9_witness :
    (let st : PState :=
      ⟨[("I1", [("id", AttrVal.str "I1"), ("type", AttrVal.str "INDI"),
          ("NAME", AttrVal.str "John")]),
        ("I2", [("id", AttrVal.str "I2"), ("type", AttrVal.str "INDI")])], [],
        CurEnt.indi "I2", some "NAME"⟩
     let es : List Entity := [⟨"Person_I1", "Person", ["Name: John"]⟩,
        ⟨"Person_I2", "Person", ["Name: Unknown_I2"]⟩]
     parse_lines initState ["0 @I1@ INDI", "1 NAME John", "0 @I2@ INDI"] = Except.ok st ∧
       format_entities st.individuals = Except.ok es ∧
       List.Forall₂ (fun (p : String × Record) (e : Entity) =>
         match lookupA "NAME" p.2 with
         | some v => truthyVal v = true ∧
             e.observations.head? = some ("Name: " ++ pyFormatVal v)
         | Option.none => e.observations.head? = some ("Name: Unknown_" ++ p.1))
         st.individuals es) := by
  refine ⟨rfl, rfl, ?_⟩
  exact c9_name_observation ["0 @I1@ INDI", "1 NAME John", "0 @I2@ INDI"] _ _ rfl rfl

end Gedcom
